import Mathlib

/-
  Verification of the reconciliation core of the honeycomb-kubernetes-agent
  pod tailer (podtailer/podtailer.go): the log-path resolution algorithm
  (determineLogPattern), the filter derivation (determineFilterFunc), the
  effective label selector, and the reconciliation loop (run / Start / Stop)
  with its watcher registry.

  Shallow embedding notes:
  - The host filesystem is an oracle `stat : String -> Except StatErr Unit`
    mirroring os.Stat: the Go code only ever checks `err == nil`.
  - Go's regexp.Match is embedded as an executable matcher `goRegexpMatch`
    over a small regex AST covering exactly the constructs the two pattern
    templates of determineFilterFunc generate (literal characters,
    backslash escapes, `.`, `[0-9]`, postfix `*` and `+`, leading `^`,
    and no `$`, so a match may end anywhere).
  - The reconciliation loop is a fold of a step function over the list of
    events the blocking select observes, in order.  External per-pod
    watchers (tailer.PathWatcher) are represented by fresh numeric ids;
    the state records which ids were told to start and told to stop, the
    constructor arguments each watcher was built from, and the log lines
    emitted, so that registry/lifecycle claims are statable.
-/

/-- Pod metadata as read by the pod tailer: v1.Pod fields Name, Namespace,
UID, and the Annotations map (modelled as an association list). -/
structure Pod where
  name : String
  ns : String
  uid : String
  anns : List (String × String)
deriving DecidableEq, Repr

/-- Result of an os.Stat probe that did not succeed: either the path does
not exist or some other error occurred.  The Go code never distinguishes
the two (it only tests `err == nil`). -/
inductive StatErr where
  | notExist
  | other (msg : String)
deriving DecidableEq, Repr

/-- The only thing the Go code asks of an os.Stat outcome: `err == nil`. -/
def statOk (r : Except StatErr Unit) : Bool :=
  match r with
  | .ok _ => true
  | .error _ => false

/-- Go map lookup `pod.Annotations[k]` with its `ok` flag. -/
def annLookup (pod : Pod) (k : String) : Option String :=
  match pod.anns.find? (fun p => p.1 = k) with
  | some p => some p.2
  | none => none

/-- Shared path template `/var/log/pods/<key>`. -/
def podsDir (key : String) : String := "/var/log/pods/" ++ key

/-- determineLogPattern from podtailer.go: legacy mode returns the fixed
/var/log/containers template with no filesystem probe; otherwise the
config-hash directory is preferred when the annotation is present and its
directory stats cleanly, then the UID directory, else an error. -/
def determineLogPattern (pod : Pod) (legacyLogPaths : Bool)
    (stat : String → Except StatErr Unit) : Except String String :=
  if legacyLogPaths then
    .ok ("/var/log/containers/" ++ pod.name ++ "_" ++ pod.ns ++ "_*.log")
  else
    match annLookup pod "kubernetes.io/config.hash" with
    | some hash =>
      if statOk (stat (podsDir hash)) then
        .ok (podsDir hash ++ "/*")
      else if statOk (stat (podsDir pod.uid)) then
        .ok (podsDir pod.uid ++ "/*")
      else
        .error ("Could not find specified log path for pod " ++ pod.uid)
    | none =>
      if statOk (stat (podsDir pod.uid)) then
        .ok (podsDir pod.uid ++ "/*")
      else
        .error ("Could not find specified log path for pod " ++ pod.uid)

/-- The characters Go's regexp.QuoteMeta escapes. -/
def goSpecials : List Char :=
  ['\\', '.', '+', '*', '?', '(', ')', '|', '[', ']', '\x7b', '\x7d', '^', '$']

/-- regexp.QuoteMeta: every special character gets a backslash. -/
def goQuoteMeta (s : String) : String :=
  String.mk (s.data.foldr
    (fun c acc => if c ∈ goSpecials then '\\' :: c :: acc else c :: acc) [])

/-- Regex AST for the fragment generated by the two filter templates. -/
inductive GRegex where
  | emp
  | eps
  | ch (c : Char)
  | dot
  | digit
  | cat (r₁ r₂ : GRegex)
  | star (r : GRegex)
deriving DecidableEq, Repr

/-- Kleene-star loop: `m` matches a nonempty chunk, the rest matches the
star again.  The fuel argument (instantiated with the length of the
input) makes the recursion structural so that the matcher evaluates in
the kernel. -/
def starMatch (m : List Char → Bool) : Nat → List Char → Bool
  | _, [] => true
  | 0, _ :: _ => false
  | fuel + 1, c :: rest =>
    (List.range (rest.length + 1)).any
      (fun i => m (c :: rest.take i) && starMatch m fuel (rest.drop i))

/-- Whole-list regex matching (the list must be consumed exactly). -/
def nmatch : GRegex → List Char → Bool
  | .emp, _ => false
  | .eps, s => s.isEmpty
  | .ch c, s => s == [c]
  | .dot, s =>
    match s with
    | [c] => decide (c ≠ '\n')
    | _ => false
  | .digit, s =>
    match s with
    | [c] => decide ('0' ≤ c ∧ c ≤ '9')
    | _ => false
  | .cat r₁ r₂, s =>
    (List.range (s.length + 1)).any
      (fun i => nmatch r₁ (s.take i) && nmatch r₂ (s.drop i))
  | .star r, s => starMatch (nmatch r) s.length s

/-- A backslash escape: the next character is a literal. -/
def escCase (k : List Char → GRegex) (rest : List Char) : GRegex :=
  match rest with
  | [] => .cat (.ch '\\') .eps
  | d :: rest₂ => .cat (.ch d) (k rest₂)

/-- An atom optionally followed by a `*` or `+` postfix, then the rest of
the pattern (compiled by the continuation `k`). -/
def postfixCase (a : GRegex) (k : List Char → GRegex) (rest : List Char) : GRegex :=
  match rest with
  | [] => .cat a .eps
  | d :: rest₂ =>
    if d = '*' then .cat (.star a) (k rest₂)
    else if d = '+' then .cat (.cat a (.star a)) (k rest₂)
    else .cat a (k rest)

/-- The `[0-9]` character class (the only class the templates generate);
any other bracket expression is outside the fragment and compiles to a
never-matching regex, as regexp.Match reports no match on a pattern it
cannot parse. -/
def classCase (k : List Char → GRegex) (rest : List Char) : GRegex :=
  match rest with
  | d :: e₁ :: e₂ :: e₃ :: rest₂ =>
    if d = '0' ∧ e₁ = '-' ∧ e₂ = '9' ∧ e₃ = ']' then postfixCase .digit k rest₂
    else .emp
  | _ => .emp

/-- Compile the pattern text (after any leading `^`) to the AST.  Covers
the constructs the two Sprintf templates produce: backslash escapes,
`[0-9]`, `.`, plain characters, postfix `*` and `+`.  The fuel argument
(instantiated with the pattern length, which always suffices since every
step consumes at least one character) keeps the recursion structural. -/
def compileF : Nat → List Char → GRegex
  | _, [] => .eps
  | 0, _ :: _ => .emp
  | fuel + 1, c :: rest =>
    if c = '\\' then escCase (compileF fuel) rest
    else if c = '.' then postfixCase .dot (compileF fuel) rest
    else if c = '[' then classCase (compileF fuel) rest
    else postfixCase (.ch c) (compileF fuel) rest

/-- Compile a whole pattern text. -/
def compile (cs : List Char) : GRegex := compileF cs.length cs

/-- A match that must begin at the current position but may end anywhere
(the templates carry no trailing `$`). -/
def matchHere (r : GRegex) (cs : List Char) : Bool :=
  (List.range (cs.length + 1)).any (fun i => nmatch r (cs.take i))

/-- Go regexp.Match of a pattern against a candidate string: a leading
`^` anchors the match at the start; otherwise a match may start at any
position. -/
def goRegexpMatch (pat : String) (s : String) : Bool :=
  match pat.data with
  | c :: pcs =>
    if c = '^' then matchHere (compile pcs) s.data
    else
      (List.range (s.data.length + 1)).any
        (fun i => matchHere (compile (c :: pcs)) (s.data.drop i))
  | [] =>
    (List.range (s.data.length + 1)).any
      (fun i => matchHere (compile []) (s.data.drop i))

/-- determineFilterFunc from podtailer.go, represented by the regex text
the returned closure captures; `none` models the `nil` func returned when
no container name is configured. -/
def determineFilterRegex (pod : Pod) (containerName : String)
    (legacyLogPaths : Bool) : Option String :=
  if containerName = "" then
    none
  else if legacyLogPaths then
    some ("^/var/log/containers/" ++ pod.name ++ "_" ++ pod.ns ++ "_" ++
      containerName ++ "-.+\\.log")
  else
    let uid :=
      match annLookup pod "kubernetes.io/config.hash" with
      | some hash => hash
      | none => pod.uid
    some ("^/var/log/pods/" ++ uid ++ "/" ++ goQuoteMeta containerName ++
      "_[0-9]*\\.log")

/-- The function value determineFilterFunc returns: the closure applies
regexp.Match of the captured pattern to the candidate file name. -/
def determineFilterFunc (pod : Pod) (containerName : String)
    (legacyLogPaths : Bool) : Option (String → Bool) :=
  (determineFilterRegex pod containerName legacyLogPaths).map goRegexpMatch

/-- Modelled from the spec: how the external tailer.PathWatcher (not part
of src/) applies the filter it was constructed with — "absence of a
constraint yields an accept-all predicate", i.e. a nil filter accepts
every file name. -/
def filterAccepts (filterRe : Option String) (fileName : String) : Bool :=
  match filterRe with
  | none => true
  | some re => goRegexpMatch re fileName

/-- Modelled from the spec: the glob `dir ++ "/*"` handed to the external
tailer.PathWatcher enumerates the files directly under `dir` — `*`
matches any (possibly empty) run of non-separator characters. -/
def globStarMatches (dir : String) (fileName : String) : Bool :=
  let d := (dir ++ "/").data
  let f := fileName.data
  decide (f.take d.length = d) && (f.drop d.length).all (fun c => c != '/')

/-- The effective label selector computed at the top of run(): the agent
always excludes its own pod. -/
def effectiveLabelSelector (labelSelector : String) : String :=
  if labelSelector = "" then
    "k8s-app!=honeycomb-agent"
  else
    labelSelector ++ ",k8s-app!=honeycomb-agent"

/- ----------------------------------------------------------------- -/
/- Association-list primitives for the Go map watcherMap.            -/
/- ----------------------------------------------------------------- -/

/-- Go map read `m[k]` (with ok flag). -/
def mget (m : List (String × Nat)) (k : String) : Option Nat :=
  match m with
  | [] => none
  | (k', v) :: rest => if k' = k then some v else mget rest k

/-- Go map `delete(m, k)`. -/
def mdel (m : List (String × Nat)) (k : String) : List (String × Nat) :=
  m.filter (fun p => decide (p.1 ≠ k))

/-- Go map write `m[k] = v` (replaces any existing entry for `k`). -/
def mset (m : List (String × Nat)) (k : String) (v : Nat) : List (String × Nat) :=
  mdel m k ++ [(k, v)]

/- ----------------------------------------------------------------- -/
/- The reconciliation loop.                                          -/
/- ----------------------------------------------------------------- -/

/-- One event observed by the blocking select in run(): a pod arriving on
podWatcher.Pods() (together with the outcome of the external
NewLineHandlerFactoryFromConfig call for it), or a UID arriving on
podWatcher.DeletedPods().  Shutdown is modelled as the end of the event
list, after which the drain loop runs. -/
inductive Event where
  | added (pod : Pod) (factoryOk : Bool)
  | deleted (uid : String)
deriving Repr

/-- Configuration fixed for the lifetime of the PodSetTailer: the
container-name constraint, the legacy-log-paths flag, and the host
filesystem oracle. -/
structure RunCfg where
  containerName : String
  legacyLogPaths : Bool
  stat : String → Except StatErr Unit

/-- Constructor arguments of an external tailer.PathWatcher. -/
structure PathWatcherArgs where
  pattern : String
  filterRe : Option String
deriving DecidableEq, Repr

/-- State of the reconciliation loop.  `registry` is the Go map
watcherMap (UID to watcher id).  The remaining fields are history
instrumentation for the external collaborators, not Go program state:
`latest` records, per UID, the most recently constructed watcher for it;
`started`/`stopped` record the ids told to Start()/Stop() in order;
`watchers` records each watcher's constructor arguments; `log` records
the log lines emitted. -/
structure LoopState where
  registry : List (String × Nat)
  latest : List (String × Nat)
  nextId : Nat
  started : List Nat
  stopped : List Nat
  watchers : List (Nat × PathWatcherArgs)
  log : List String
deriving DecidableEq, Repr

/-- The loop starts with an empty registry and no watcher history. -/
def initState : LoopState :=
  { registry := [], latest := [], nextId := 0, started := [], stopped := [],
    watchers := [], log := [] }

/-- watcherForPod from podtailer.go: resolve the log pattern (on failure
only a warning is logged and the pattern stays the zero value ""), derive
the filter, then build the line-handler pipeline; only a pipeline
construction failure makes the function return an error.  Returns the
log lines it emitted and, on success, the PathWatcher constructor
arguments. -/
def watcherForPod (cfg : RunCfg) (pod : Pod) (factoryOk : Bool) :
    List String × Option PathWatcherArgs :=
  let (logs₁, pattern) :=
    match determineLogPattern pod cfg.legacyLogPaths cfg.stat with
    | .ok p => ([], p)
    | .error _ => (["Error finding log path " ++ pod.uid], "")
  let filterRe := determineFilterRegex pod cfg.containerName cfg.legacyLogPaths
  if factoryOk then
    (logs₁ ++ ["Setting up watcher for pod " ++ pod.uid],
      some { pattern := pattern, filterRe := filterRe })
  else
    (logs₁ ++ ["Error setting up watcher"], none)

/-- One iteration of the select loop in run().  A pod-added event builds
a watcher via watcherForPod; on error the loop just logs and continues;
on success the watcher is started and written into the registry
(replacing any previous entry for the UID without stopping it).  A
pod-deleted event stops and removes the registered watcher if present
and is a no-op otherwise. -/
def stepEvent (cfg : RunCfg) (s : LoopState) (e : Event) : LoopState :=
  match e with
  | .added pod factoryOk =>
    match watcherForPod cfg pod factoryOk with
    | (logs, none) =>
      { s with log := s.log ++ logs ++ ["Error setting up watcher"] }
    | (logs, some w) =>
      { registry := mset s.registry pod.uid s.nextId
        latest := mset s.latest pod.uid s.nextId
        nextId := s.nextId + 1
        started := s.started ++ [s.nextId]
        stopped := s.stopped
        watchers := s.watchers ++ [(s.nextId, w)]
        log := s.log ++ logs ++ ["starting watcher for pod " ++ pod.uid] }
  | .deleted uid =>
    match mget s.registry uid with
    | some w =>
      { s with registry := mdel s.registry uid
               stopped := s.stopped ++ [w]
               log := s.log ++ ["pod deleted, stopping watcher " ++ uid] }
    | none => s

/-- The select loop of run(): events are processed strictly one at a
time, in order, until the shutdown signal ends the wait. -/
def runLoop (cfg : RunCfg) (events : List Event) : LoopState :=
  events.foldl (stepEvent cfg) initState

/-- The drain after the loop exits: every watcher still in the registry
is stopped, one at a time. -/
def drainRegistry (s : LoopState) : LoopState :=
  { s with stopped := s.stopped ++ s.registry.map Prod.snd }

/-- Stop(): the shutdown signal ends the wait loop, then run() drains the
registry before wg.Done() lets Stop() return.  The state this function
returns is the state at the moment Stop() returns. -/
def runAndStop (cfg : RunCfg) (events : List Event) : LoopState :=
  drainRegistry (runLoop cfg events)

/- ----------------------------------------------------------------- -/
/- Association-list lemmas.                                          -/
/- ----------------------------------------------------------------- -/

theorem mget_mdel_self (m : List (String × Nat)) (k : String) :
    mget (mdel m k) k = none := by
  induction m with
  | nil => rfl
  | cons p rest ih =>
    by_cases h : p.1 = k
    · simpa [mdel, List.filter, h] using ih
    · simpa [mdel, List.filter, h, mget] using ih

theorem mget_mdel_ne (m : List (String × Nat)) (k k' : String) (h : k' ≠ k) :
    mget (mdel m k) k' = mget m k' := by
  induction m with
  | nil => rfl
  | cons p rest ih =>
    by_cases hp : p.1 = k
    · have hp' : p.1 ≠ k' := by rw [hp]; exact fun e => h e.symm
      have hd : mdel (p :: rest) k = mdel rest k := by
        simp [mdel, List.filter_cons, hp]
      rw [hd, ih]
      simp [mget, hp']
    · have hd : mdel (p :: rest) k = p :: mdel rest k := by
        simp [mdel, List.filter_cons, hp]
      rw [hd]
      by_cases hq : p.1 = k'
      · simp [mget, hq]
      · simp [mget, hq, ih]

theorem mget_append (a b : List (String × Nat)) (k : String) :
    mget (a ++ b) k = match mget a k with
      | some v => some v
      | none => mget b k := by
  induction a with
  | nil => simp [mget]
  | cons p rest ih =>
    by_cases h : p.1 = k
    · simp [mget, h]
    · simpa [mget, h] using ih

theorem mget_mset_self (m : List (String × Nat)) (k : String) (v : Nat) :
    mget (mset m k v) k = some v := by
  simp [mset, mget_append, mget_mdel_self, mget]

theorem mget_mset_ne (m : List (String × Nat)) (k k' : String) (v : Nat)
    (h : k' ≠ k) : mget (mset m k v) k' = mget m k' := by
  have hne : k ≠ k' := fun e => h e.symm
  simp [mset, mget_append, mget_mdel_ne m k k' h, mget, hne]
  cases mget m k' <;> simp

theorem mget_mem (m : List (String × Nat)) (k : String) (v : Nat)
    (h : mget m k = some v) : (k, v) ∈ m := by
  induction m with
  | nil => simp [mget] at h
  | cons p rest ih =>
    by_cases hp : p.1 = k
    · simp [mget, hp] at h
      have hpv : p = (k, v) := by
        cases p with
        | mk a b =>
          simp only at hp h
          rw [hp, h]
      rw [← hpv]
      exact List.mem_cons_self p rest
    · simp [mget, hp] at h
      exact List.mem_cons_of_mem _ (ih h)

theorem mem_mdel (m : List (String × Nat)) (k : String) (p : String × Nat)
    (h : p ∈ mdel m k) : p ∈ m ∧ p.1 ≠ k := by
  have := List.mem_filter.mp h
  exact ⟨this.1, by simpa using this.2⟩

theorem mdel_keys_sublist (m : List (String × Nat)) (k : String) :
    ((mdel m k).map Prod.fst).Sublist (m.map Prod.fst) :=
  List.Sublist.map Prod.fst (List.filter_sublist m)

theorem mdel_vals_sublist (m : List (String × Nat)) (k : String) :
    ((mdel m k).map Prod.snd).Sublist (m.map Prod.snd) :=
  List.Sublist.map Prod.snd (List.filter_sublist m)

theorem mset_keys_nodup (m : List (String × Nat)) (k : String) (v : Nat)
    (h : (m.map Prod.fst).Nodup) : ((mset m k v).map Prod.fst).Nodup := by
  have h1 : ((mdel m k).map Prod.fst).Nodup :=
    (mdel_keys_sublist m k).nodup h
  have h2 : k ∉ (mdel m k).map Prod.fst := by
    intro hk
    obtain ⟨p, hp, hpk⟩ := List.mem_map.mp hk
    exact (mem_mdel m k p hp).2 hpk
  simp only [mset, List.map_append]
  exact List.nodup_append.mpr ⟨h1, by simp, by
    intro a ha hb
    simp at hb
    exact h2 (hb ▸ ha)⟩

theorem mset_vals_nodup (m : List (String × Nat)) (k : String) (v : Nat)
    (hnd : (m.map Prod.snd).Nodup) (hfresh : ∀ p ∈ m, p.2 ≠ v) :
    ((mset m k v).map Prod.snd).Nodup := by
  have h1 : ((mdel m k).map Prod.snd).Nodup :=
    (mdel_vals_sublist m k).nodup hnd
  have h2 : v ∉ (mdel m k).map Prod.snd := by
    intro hv
    obtain ⟨p, hp, hpv⟩ := List.mem_map.mp hv
    exact hfresh p (mem_mdel m k p hp).1 hpv
  simp only [mset, List.map_append]
  exact List.nodup_append.mpr ⟨h1, by simp, by
    intro a ha hb
    simp at hb
    exact h2 (hb ▸ ha)⟩

theorem vals_nodup_inj (m : List (String × Nat))
    (hnd : (m.map Prod.snd).Nodup) (u u' : String) (w : Nat)
    (h1 : (u, w) ∈ m) (h2 : (u', w) ∈ m) : u = u' := by
  induction m with
  | nil => simp at h1
  | cons p rest ih =>
    simp only [List.map_cons, List.nodup_cons] at hnd
    rcases List.mem_cons.mp h1 with e1 | m1
    · rcases List.mem_cons.mp h2 with e2 | m2
      · exact congrArg Prod.fst (e1.trans e2.symm)
      · exfalso
        apply hnd.1
        exact List.mem_map.mpr ⟨(u', w), m2, show w = p.2 from congrArg Prod.snd e1⟩
    · rcases List.mem_cons.mp h2 with e2 | m2
      · exfalso
        apply hnd.1
        exact List.mem_map.mpr ⟨(u, w), m1, show w = p.2 from congrArg Prod.snd e2⟩
      · exact ih hnd.2 m1 m2

/- ----------------------------------------------------------------- -/
/- Concrete fixtures used by witnesses and counterexamples.          -/
/- ----------------------------------------------------------------- -/

/-- A filesystem oracle on which every probe fails with not-exist. -/
def statNone : String → Except StatErr Unit := fun _ => .error .notExist

/-- The pod of the spec's worked examples. -/
def podW1 : Pod := { name := "web-1", ns := "default", uid := "uid-w1", anns := [] }

/-- A pod whose log path cannot be resolved under `statNone`. -/
def podFail : Pod := { name := "p1", ns := "default", uid := "uid-1", anns := [] }

/-- New-layout configuration over the empty filesystem. -/
def cfgFail : RunCfg :=
  { containerName := "", legacyLogPaths := false, stat := statNone }

/-- Legacy-mode configuration (resolution never probes the filesystem). -/
def cfgLegacy : RunCfg :=
  { containerName := "", legacyLogPaths := true, stat := statNone }

/-- A critical pod carrying the config-hash annotation. -/
def podHash : Pod :=
  { name := "kube-proxy", ns := "kube-system", uid := "uid-2",
    anns := [("kubernetes.io/config.hash", "abc123")] }

/-- A filesystem on which only the hash directory of `podHash` exists. -/
def statHashOnly : String → Except StatErr Unit := fun p =>
  if p = "/var/log/pods/abc123" then .ok () else .error .notExist

/-- A registry state holding one watcher, for the deletion witness. -/
def sDel : LoopState :=
  { registry := [("uid-1", 0)], latest := [("uid-1", 0)], nextId := 1,
    started := [0], stopped := [],
    watchers := [(0, { pattern := "/p", filterRe := none })], log := [] }

/- ----------------------------------------------------------------- -/
/- Claim theorems.                                                   -/
/- ----------------------------------------------------------------- -/

set_option maxRecDepth 4000

/-- Claim C1: the claim says that when determineLogPattern fails the pod is
skipped and nothing is registered.  The code does the opposite:
watcherForPod only logs the warning and falls through, so (when the
handler factory succeeds) a watcher whose pattern is the zero value "" is
constructed, started and inserted into the registry; the loop then also
keeps processing later events.  This theorem evaluates the step at such a
failing input. -/
theorem watcher_registered_despite_log_path_error :
    determineLogPattern podFail false statNone =
      .error "Could not find specified log path for pod uid-1"
    ∧ (stepEvent cfgFail initState (.added podFail true)).registry = [("uid-1", 0)]
    ∧ (stepEvent cfgFail initState (.added podFail true)).started = [0]
    ∧ (stepEvent cfgFail initState (.added podFail true)).watchers =
        [(0, { pattern := "", filterRe := none })]
    ∧ "Error finding log path uid-1" ∈ (stepEvent cfgFail initState (.added podFail true)).log
    ∧ (runLoop cfgFail [.added podFail true, .deleted "uid-1"]).registry = []
    ∧ (runLoop cfgFail [.added podFail true, .deleted "uid-1"]).stopped = [0] := by
  refine ⟨rfl, ?_, ?_, ?_, ?_, ?_, ?_⟩ <;> decide

/-- Claim C3: after the shutdown signal ends the wait loop, Stop() drains
the registry before returning: the stop history is extended, one watcher
at a time, by exactly the watchers still registered, and every watcher
registered at loop exit has been told to stop in the state Stop()
returns. -/
theorem stop_drains_all_registered_watchers (cfg : RunCfg) (events : List Event) :
    (runAndStop cfg events).stopped =
      (runLoop cfg events).stopped ++ (runLoop cfg events).registry.map Prod.snd
    ∧ ∀ u w, mget (runLoop cfg events).registry u = some w →
        w ∈ (runAndStop cfg events).stopped := by
  constructor
  · rfl
  · intro u w h
    have hm : (u, w) ∈ (runLoop cfg events).registry := mget_mem _ _ _ h
    have hv : w ∈ (runLoop cfg events).registry.map Prod.snd :=
      List.mem_map.mpr ⟨(u, w), hm, rfl⟩
    show w ∈ (runLoop cfg events).stopped ++ (runLoop cfg events).registry.map Prod.snd
    exact List.mem_append.mpr (Or.inr hv)

/-- Witness for C3 at a concrete run: one pod is added in legacy mode and
its watcher is stopped by Stop()'s drain. -/
theorem stop_drains_all_registered_watchers_witness :
    0 ∈ (runAndStop cfgLegacy [.added podW1 true]).stopped :=
  (stop_drains_all_registered_watchers cfgLegacy [.added podW1 true]).2
    "uid-w1" 0 (by decide)

/-- Claim C4: in new (non-legacy) mode, resolution prefers the config-hash
directory whenever the annotation is present and that directory stats
cleanly (regardless of the UID directory), falls back to the UID
directory, fails with the path-not-found error otherwise, and only ever
depends on whether each probe succeeded (so a probe error is exactly a
missing directory). -/
theorem determineLogPattern_new_mode_precedence (pod : Pod)
    (stat stat₂ : String → Except StatErr Unit) :
    (∀ hash, annLookup pod "kubernetes.io/config.hash" = some hash →
      statOk (stat (podsDir hash)) = true →
      determineLogPattern pod false stat = .ok (podsDir hash ++ "/*"))
    ∧ ((∀ hash, annLookup pod "kubernetes.io/config.hash" = some hash →
        statOk (stat (podsDir hash)) = false) →
      statOk (stat (podsDir pod.uid)) = true →
      determineLogPattern pod false stat = .ok (podsDir pod.uid ++ "/*"))
    ∧ ((∀ hash, annLookup pod "kubernetes.io/config.hash" = some hash →
        statOk (stat (podsDir hash)) = false) →
      statOk (stat (podsDir pod.uid)) = false →
      determineLogPattern pod false stat =
        .error ("Could not find specified log path for pod " ++ pod.uid))
    ∧ ((∀ p, statOk (stat p) = statOk (stat₂ p)) →
      ∀ legacy, determineLogPattern pod legacy stat =
        determineLogPattern pod legacy stat₂) := by
  refine ⟨?_, ?_, ?_, ?_⟩
  · intro hash hann hst
    simp [determineLogPattern, hann, hst]
  · intro hno hst
    cases hann : annLookup pod "kubernetes.io/config.hash" with
    | some hash => simp [determineLogPattern, hann, hno hash hann, hst]
    | none => simp [determineLogPattern, hann, hst]
  · intro hno hst
    cases hann : annLookup pod "kubernetes.io/config.hash" with
    | some hash => simp [determineLogPattern, hann, hno hash hann, hst]
    | none => simp [determineLogPattern, hann, hst]
  · intro heq legacy
    cases legacy with
    | true => simp [determineLogPattern]
    | false =>
      cases hann : annLookup pod "kubernetes.io/config.hash" with
      | some hash =>
        simp only [determineLogPattern, hann, Bool.false_eq_true, if_false]
        rw [heq (podsDir hash), heq (podsDir pod.uid)]
      | none =>
        simp only [determineLogPattern, hann, Bool.false_eq_true, if_false]
        rw [heq (podsDir pod.uid)]

/-- Witness for C4: the critical pod resolves to the hash directory on a
filesystem where that directory exists. -/
theorem determineLogPattern_new_mode_precedence_witness :
    determineLogPattern podHash false statHashOnly = .ok "/var/log/pods/abc123/*" :=
  (determineLogPattern_new_mode_precedence podHash statHashOnly statHashOnly).1
    "abc123" (by decide) (by decide)

/-- Claim C6: for every user-supplied label selector the effective
selector is the user selector with the self-exclusion clause appended
(comma-separated when the user selector is nonempty), so it always
contains the exclusion clause. -/
theorem effectiveLabelSelector_appends_exclusion (sel : String) :
    effectiveLabelSelector sel =
      sel ++ (if sel = "" then "" else ",") ++ "k8s-app!=honeycomb-agent"
    ∧ ∃ a b, effectiveLabelSelector sel = a ++ "k8s-app!=honeycomb-agent" ++ b := by
  by_cases h : sel = ""
  · subst h
    constructor
    · simp [effectiveLabelSelector]
    · exact ⟨"", "", by simp [effectiveLabelSelector]⟩
  · constructor
    · simp only [effectiveLabelSelector, h, if_neg h, if_false]
      rw [String.append_assoc]
      rfl
    · refine ⟨sel ++ ",", "", ?_⟩
      simp only [effectiveLabelSelector, h, if_false, String.append_empty]
      rw [String.append_assoc]
      rfl

/-- Claim C7: legacy-mode resolution always succeeds with the fixed
/var/log/containers template built from pod name and namespace, for every
filesystem oracle; in particular web-1/default yields the spec's
example pattern. -/
theorem determineLogPattern_legacy_fixed_template (pod : Pod)
    (stat : String → Except StatErr Unit) :
    determineLogPattern pod true stat =
      .ok ("/var/log/containers/" ++ pod.name ++ "_" ++ pod.ns ++ "_*.log")
    ∧ determineLogPattern podW1 true stat =
      .ok "/var/log/containers/web-1_default_*.log" := by
  constructor
  · simp [determineLogPattern]
  · rfl

/-- Claim C8: a pod-deleted event stops and removes the registered
watcher when the UID is present, and is a complete no-op (identical
state, no error) when it is absent. -/
theorem deleted_event_stop_remove_or_noop (cfg : RunCfg) (s : LoopState)
    (uid : String) :
    (∀ w, mget s.registry uid = some w →
      stepEvent cfg s (.deleted uid) =
        { s with registry := mdel s.registry uid,
                 stopped := s.stopped ++ [w],
                 log := s.log ++ ["pod deleted, stopping watcher " ++ uid] })
    ∧ (mget s.registry uid = none → stepEvent cfg s (.deleted uid) = s) := by
  constructor
  · intro w h
    simp [stepEvent, h]
  · intro h
    simp [stepEvent, h]

/-- Witness for C8: both branches at a concrete one-watcher state. -/
theorem deleted_event_stop_remove_or_noop_witness :
    stepEvent cfgFail sDel (.deleted "uid-1") =
      { sDel with registry := mdel sDel.registry "uid-1",
                  stopped := sDel.stopped ++ [0],
                  log := sDel.log ++ ["pod deleted, stopping watcher " ++ "uid-1"] }
    ∧ stepEvent cfgFail sDel (.deleted "missing") = sDel :=
  ⟨(deleted_event_stop_remove_or_noop cfgFail sDel "uid-1").1 0 (by decide),
   (deleted_event_stop_remove_or_noop cfgFail sDel "missing").2 (by decide)⟩

/-- Claim C9: when the line-handler factory fails for a pod-added event,
the error is logged, no watcher is created, started or registered (every
lifecycle field of the state is unchanged), and the loop goes on to
process the remaining events. -/
theorem factory_error_skips_pod_and_loop_continues (cfg : RunCfg)
    (s : LoopState) (pod : Pod) (pre post : List Event) :
    (stepEvent cfg s (.added pod false)).registry = s.registry
    ∧ (stepEvent cfg s (.added pod false)).latest = s.latest
    ∧ (stepEvent cfg s (.added pod false)).nextId = s.nextId
    ∧ (stepEvent cfg s (.added pod false)).started = s.started
    ∧ (stepEvent cfg s (.added pod false)).stopped = s.stopped
    ∧ (stepEvent cfg s (.added pod false)).watchers = s.watchers
    ∧ (stepEvent cfg s (.added pod false)).log =
        s.log ++ (watcherForPod cfg pod false).1 ++ ["Error setting up watcher"]
    ∧ "Error setting up watcher" ∈ (stepEvent cfg s (.added pod false)).log
    ∧ runLoop cfg (pre ++ .added pod false :: post) =
        post.foldl (stepEvent cfg) (stepEvent cfg (runLoop cfg pre) (.added pod false)) := by
  have hw : ∃ logs, watcherForPod cfg pod false = (logs, none) := by
    cases hd : determineLogPattern pod cfg.legacyLogPaths cfg.stat with
    | ok p =>
      exact ⟨["Error setting up watcher"], by simp [watcherForPod, hd]⟩
    | error e =>
      exact ⟨["Error finding log path " ++ pod.uid, "Error setting up watcher"],
        by simp [watcherForPod, hd]⟩
  obtain ⟨logs, hw⟩ := hw
  have hlogs : (watcherForPod cfg pod false).1 = logs := by rw [hw]
  refine ⟨?_, ?_, ?_, ?_, ?_, ?_, ?_, ?_, ?_⟩
  all_goals simp [stepEvent, hw, hlogs, runLoop, List.foldl_append]

/- ----------------------------------------------------------------- -/
/- Registry invariant for claim C2.                                  -/
/- ----------------------------------------------------------------- -/

/-- Invariant of the loop state: registry keys and watcher ids are
unique, every recorded id is below the fresh-id counter, and a registry
entry exists exactly when the most recent watcher constructed for that
UID has been started and not stopped. -/
structure RegInv (s : LoopState) : Prop where
  keysNodup : (s.registry.map Prod.fst).Nodup
  valsNodup : (s.registry.map Prod.snd).Nodup
  regBound : ∀ p ∈ s.registry, p.2 < s.nextId
  latestBound : ∀ p ∈ s.latest, p.2 < s.nextId
  startedBound : ∀ w ∈ s.started, w < s.nextId
  stoppedBound : ∀ w ∈ s.stopped, w < s.nextId
  regIff : ∀ u w, mget s.registry u = some w ↔
    (mget s.latest u = some w ∧ w ∈ s.started ∧ w ∉ s.stopped)

theorem regInv_init : RegInv initState := by
  constructor <;> simp [initState, mget]

theorem watcherForPod_true_some (cfg : RunCfg) (pod : Pod) :
    ∃ logs args, watcherForPod cfg pod true = (logs, some args) := by
  cases hd : determineLogPattern pod cfg.legacyLogPaths cfg.stat with
  | ok p =>
    exact ⟨["Setting up watcher for pod " ++ pod.uid],
      { pattern := p,
        filterRe := determineFilterRegex pod cfg.containerName cfg.legacyLogPaths },
      by simp [watcherForPod, hd]⟩
  | error e =>
    exact ⟨["Error finding log path " ++ pod.uid,
        "Setting up watcher for pod " ++ pod.uid],
      { pattern := "",
        filterRe := determineFilterRegex pod cfg.containerName cfg.legacyLogPaths },
      by simp [watcherForPod, hd]⟩

theorem regInv_step (cfg : RunCfg) (s : LoopState) (e : Event)
    (h : RegInv s) : RegInv (stepEvent cfg s e) := by
  cases e with
  | added pod factoryOk =>
    rcases hw : watcherForPod cfg pod factoryOk with ⟨logs, warg⟩
    cases warg with
    | none =>
      have hs : stepEvent cfg s (.added pod factoryOk) =
          { s with log := s.log ++ logs ++ ["Error setting up watcher"] } := by
        simp [stepEvent, hw]
      rw [hs]
      exact ⟨h.keysNodup, h.valsNodup, h.regBound, h.latestBound,
        h.startedBound, h.stoppedBound, h.regIff⟩
    | some args =>
      have hs : stepEvent cfg s (.added pod factoryOk) =
          { registry := mset s.registry pod.uid s.nextId
            latest := mset s.latest pod.uid s.nextId
            nextId := s.nextId + 1
            started := s.started ++ [s.nextId]
            stopped := s.stopped
            watchers := s.watchers ++ [(s.nextId, args)]
            log := s.log ++ logs ++ ["starting watcher for pod " ++ pod.uid] } := by
        simp [stepEvent, hw]
      rw [hs]
      refine ⟨?_, ?_, ?_, ?_, ?_, ?_, ?_⟩
      · exact mset_keys_nodup _ _ _ h.keysNodup
      · exact mset_vals_nodup _ _ _ h.valsNodup
          (fun p hp e => absurd (e ▸ h.regBound p hp) (lt_irrefl _))
      · intro p hp
        rcases List.mem_append.mp hp with hm | hm
        · exact Nat.lt_succ_of_lt (h.regBound p (mem_mdel _ _ _ hm).1)
        · simp at hm
          simp [hm]
      · intro p hp
        rcases List.mem_append.mp hp with hm | hm
        · exact Nat.lt_succ_of_lt (h.latestBound p (mem_mdel _ _ _ hm).1)
        · simp at hm
          simp [hm]
      · intro w hwm
        rcases List.mem_append.mp hwm with hm | hm
        · exact Nat.lt_succ_of_lt (h.startedBound w hm)
        · simp at hm
          simp [hm]
      · intro w hwm
        exact Nat.lt_succ_of_lt (h.stoppedBound w hwm)
      · intro u w
        by_cases hu : u = pod.uid
        · subst hu
          rw [mget_mset_self, mget_mset_self]
          constructor
          · intro he
            have hwn : w = s.nextId := by
              injection he.symm
            subst hwn
            refine ⟨rfl, List.mem_append.mpr (Or.inr (by simp)), ?_⟩
            intro hst
            exact absurd (h.stoppedBound _ hst) (lt_irrefl _)
          · rintro ⟨h1, -, -⟩
            exact h1.symm ▸ rfl
        · have hu' : u ≠ pod.uid := hu
          rw [mget_mset_ne _ _ _ _ hu', mget_mset_ne _ _ _ _ hu']
          constructor
          · intro he
            obtain ⟨h1, h2, h3⟩ := (h.regIff u w).mp he
            exact ⟨h1, List.mem_append.mpr (Or.inl h2), h3⟩
          · rintro ⟨h1, h2, h3⟩
            rcases List.mem_append.mp h2 with hm | hm
            · exact (h.regIff u w).mpr ⟨h1, hm, h3⟩
            · simp at hm
              exfalso
              have := h.latestBound _ (mget_mem _ _ _ h1)
              simp only at this
              rw [hm] at this
              exact lt_irrefl _ this
  | deleted uid =>
    cases hg : mget s.registry uid with
    | none =>
      rw [show stepEvent cfg s (.deleted uid) = s by simp [stepEvent, hg]]
      exact h
    | some w =>
      have hs : stepEvent cfg s (.deleted uid) =
          { s with registry := mdel s.registry uid
                   stopped := s.stopped ++ [w]
                   log := s.log ++ ["pod deleted, stopping watcher " ++ uid] } := by
        simp [stepEvent, hg]
      rw [hs]
      have hmem : (uid, w) ∈ s.registry := mget_mem _ _ _ hg
      refine ⟨?_, ?_, ?_, ?_, ?_, ?_, ?_⟩
      · exact (mdel_keys_sublist _ _).nodup h.keysNodup
      · exact (mdel_vals_sublist _ _).nodup h.valsNodup
      · intro p hp
        exact h.regBound p (mem_mdel _ _ _ hp).1
      · exact h.latestBound
      · exact h.startedBound
      · intro v hv
        rcases List.mem_append.mp hv with hm | hm
        · exact h.stoppedBound v hm
        · simp at hm
          exact hm ▸ h.regBound _ hmem
      · intro u w'
        by_cases hu : u = uid
        · subst hu
          rw [mget_mdel_self]
          constructor
          · intro he
            cases he
          · rintro ⟨h1, h2, h3⟩
            exfalso
            have h3' : w' ∉ s.stopped :=
              fun hc => h3 (List.mem_append.mpr (Or.inl hc))
            have := (h.regIff u w').mpr ⟨h1, h2, h3'⟩
            rw [hg] at this
            have hww : w' = w := by injection this.symm
            exact h3 (List.mem_append.mpr (Or.inr (by simp [hww])))
        · rw [mget_mdel_ne _ _ _ hu]
          constructor
          · intro he
            obtain ⟨h1, h2, h3⟩ := (h.regIff u w').mp he
            refine ⟨h1, h2, ?_⟩
            intro hc
            rcases List.mem_append.mp hc with hm | hm
            · exact h3 hm
            · simp at hm
              subst hm
              exact hu (vals_nodup_inj _ h.valsNodup u uid w'
                (mget_mem _ _ _ he) hmem)
          · rintro ⟨h1, h2, h3⟩
            have h3' : w' ∉ s.stopped :=
              fun hc => h3 (List.mem_append.mpr (Or.inl hc))
            exact (h.regIff u w').mpr ⟨h1, h2, h3'⟩

theorem regInv_foldl (cfg : RunCfg) (events : List Event) :
    ∀ s, RegInv s → RegInv (events.foldl (stepEvent cfg) s) := by
  induction events with
  | nil => intro s h; exact h
  | cons e rest ih =>
    intro s h
    exact ih _ (regInv_step cfg s e h)

theorem regInv_runLoop (cfg : RunCfg) (events : List Event) :
    RegInv (runLoop cfg events) :=
  regInv_foldl cfg events initState regInv_init

/-- Claim C2: across every event sequence the registry holds at most one
entry per UID; an entry for a UID exists exactly when the most recent
watcher constructed for that UID has been told to start and not yet told
to stop; and a second added event for an already-registered UID replaces
the entry with the fresh watcher while the old watcher is neither the new
entry nor ever told to stop by that step. -/
theorem registry_unique_entry_iff_live_and_replacement (cfg : RunCfg)
    (events : List Event) :
    ((runLoop cfg events).registry.map Prod.fst).Nodup
    ∧ (∀ u w, mget (runLoop cfg events).registry u = some w ↔
        (mget (runLoop cfg events).latest u = some w ∧
          w ∈ (runLoop cfg events).started ∧
          w ∉ (runLoop cfg events).stopped))
    ∧ (∀ pod w, mget (runLoop cfg events).registry pod.uid = some w →
        mget (stepEvent cfg (runLoop cfg events) (.added pod true)).registry pod.uid
          = some (runLoop cfg events).nextId
        ∧ (runLoop cfg events).nextId ≠ w
        ∧ w ∉ (stepEvent cfg (runLoop cfg events) (.added pod true)).stopped
        ∧ w ∈ (stepEvent cfg (runLoop cfg events) (.added pod true)).started) := by
  have hinv := regInv_runLoop cfg events
  refine ⟨hinv.keysNodup, hinv.regIff, ?_⟩
  intro pod w hreg
  obtain ⟨logs, args, hw⟩ := watcherForPod_true_some cfg pod
  have hs : stepEvent cfg (runLoop cfg events) (.added pod true) =
      { registry := mset (runLoop cfg events).registry pod.uid (runLoop cfg events).nextId
        latest := mset (runLoop cfg events).latest pod.uid (runLoop cfg events).nextId
        nextId := (runLoop cfg events).nextId + 1
        started := (runLoop cfg events).started ++ [(runLoop cfg events).nextId]
        stopped := (runLoop cfg events).stopped
        watchers := (runLoop cfg events).watchers ++ [((runLoop cfg events).nextId, args)]
        log := (runLoop cfg events).log ++ logs ++
          ["starting watcher for pod " ++ pod.uid] } := by
    simp [stepEvent, hw]
  obtain ⟨-, hstarted, hstopped⟩ := (hinv.regIff pod.uid w).mp hreg
  refine ⟨?_, ?_, ?_, ?_⟩
  · rw [hs]
    exact mget_mset_self _ _ _
  · intro he
    exact absurd (he ▸ hinv.regBound _ (mget_mem _ _ _ hreg)) (lt_irrefl _)
  · rw [hs]
    exact hstopped
  · rw [hs]
    exact List.mem_append.mpr (Or.inl hstarted)

/-- Witness for C2: a concrete run with one registered pod, replaced by a
second added event for the same UID. -/
theorem registry_unique_entry_iff_live_and_replacement_witness :
    mget (stepEvent cfgLegacy (runLoop cfgLegacy [.added podW1 true])
        (.added podW1 true)).registry podW1.uid =
      some (runLoop cfgLegacy [.added podW1 true]).nextId
    ∧ (runLoop cfgLegacy [.added podW1 true]).nextId ≠ 0
    ∧ 0 ∉ (stepEvent cfgLegacy (runLoop cfgLegacy [.added podW1 true])
        (.added podW1 true)).stopped
    ∧ 0 ∈ (stepEvent cfgLegacy (runLoop cfgLegacy [.added podW1 true])
        (.added podW1 true)).started :=
  (registry_unique_entry_iff_live_and_replacement cfgLegacy
    [.added podW1 true]).2.2 podW1 0 (by decide)

/- ----------------------------------------------------------------- -/
/- A small list-prefix theory used for the filter/glob analysis.     -/
/- ----------------------------------------------------------------- -/

/-- `LPre a b`: the list `a` is an initial segment of `b`. -/
def LPre (a b : List Char) : Prop := ∃ t, b = a ++ t

theorem LPre_trans {a b c : List Char} (h1 : LPre a b) (h2 : LPre b c) :
    LPre a c := by
  obtain ⟨t1, rfl⟩ := h1
  obtain ⟨t2, rfl⟩ := h2
  exact ⟨t1 ++ t2, by simp⟩

theorem LPre_cancel {p a b : List Char} (h : LPre (p ++ a) (p ++ b)) :
    LPre a b := by
  obtain ⟨t, ht⟩ := h
  rw [List.append_assoc] at ht
  exact ⟨t, List.append_cancel_left ht⟩

theorem LPre_length {a b : List Char} (h : LPre a b) : a.length ≤ b.length := by
  obtain ⟨t, rfl⟩ := h
  simp

theorem LPre_mem {a b : List Char} {c : Char} (h : LPre a b) (hc : c ∈ a) :
    c ∈ b := by
  obtain ⟨t, rfl⟩ := h
  exact List.mem_append.mpr (Or.inl hc)

theorem LPre_take {a b : List Char} (h : LPre a b) : b.take a.length = a := by
  obtain ⟨t, rfl⟩ := h
  exact List.take_left a t

theorem LPre_of_take (n : Nat) (b : List Char) : LPre (b.take n) b :=
  ⟨b.drop n, (List.take_append_drop n b).symm⟩

theorem LPre_common {a b x : List Char} (ha : LPre a x) (hb : LPre b x)
    (hl : a.length ≤ b.length) : LPre a b := by
  have h1 : x.take a.length = a := LPre_take ha
  have h2 : x.take b.length = b := LPre_take hb
  have h3 : b.take a.length = a := by
    rw [← h2, List.take_take, Nat.min_eq_left hl, h1]
  rw [← h3]
  exact LPre_of_take a.length b

theorem LPre_append_le {a b c : List Char} (h : LPre a (b ++ c))
    (hl : a.length ≤ b.length) : LPre a b := by
  have h1 : (b ++ c).take a.length = a := LPre_take h
  have h2 : (b ++ c).take a.length = b.take a.length :=
    List.take_append_of_le_length hl
  rw [h2] at h1
  rw [← h1]
  exact LPre_of_take a.length b

theorem LPre_full {a b : List Char} (h : LPre a b)
    (hl : b.length ≤ a.length) : a = b := by
  obtain ⟨t, rfl⟩ := h
  have : t.length = 0 := by
    have := List.length_append a t
    omega
  rw [List.length_eq_zero.mp this, List.append_nil]

/- ----------------------------------------------------------------- -/
/- Structural facts about the regex matcher and compiler.            -/
/- ----------------------------------------------------------------- -/

theorem nmatch_ch_iff (c : Char) (s : List Char) :
    nmatch (.ch c) s = true ↔ s = [c] := by
  simp [nmatch]

theorem nmatch_cat_iff (r₁ r₂ : GRegex) (s : List Char) :
    nmatch (.cat r₁ r₂) s = true ↔
      ∃ i, i ≤ s.length ∧ nmatch r₁ (s.take i) = true ∧
        nmatch r₂ (s.drop i) = true := by
  simp only [nmatch, List.any_eq_true, List.mem_range, Nat.lt_succ_iff,
    Bool.and_eq_true]

/-- Chain of single-character atoms in front of a regex: the compiled
form of a literal prefix. -/
def chainOnto (l : List Char) (r : GRegex) : GRegex :=
  l.foldr (fun c acc => .cat (.ch c) acc) r

theorem nmatch_chainOnto_iff (l : List Char) (r : GRegex) :
    ∀ s, nmatch (chainOnto l r) s = true ↔
      ∃ t, s = l ++ t ∧ nmatch r t = true := by
  induction l with
  | nil =>
    intro s
    simp [chainOnto]
  | cons c l' ih =>
    intro s
    have hc : chainOnto (c :: l') r = .cat (.ch c) (chainOnto l' r) := rfl
    rw [hc, nmatch_cat_iff]
    constructor
    · rintro ⟨i, hi, h1, h2⟩
      rw [nmatch_ch_iff] at h1
      cases s with
      | nil => simp at h1
      | cons a s₂ =>
        cases i with
        | zero => simp at h1
        | succ j =>
          rw [List.take_succ_cons] at h1
          have ha : a = c := by
            injection h1
          have hj : s₂.take j = [] := by
            injection h1
          have hdrop : s₂.drop j = s₂ := by
            rcases List.take_eq_nil_iff.mp hj with hj0 | hs0
            · rw [hj0]
              rfl
            · rw [hs0]
              simp
          rw [List.drop_succ_cons, hdrop] at h2
          obtain ⟨t, rfl, hr⟩ := (ih s₂).mp h2
          exact ⟨t, by rw [ha, List.cons_append], hr⟩
    · rintro ⟨t, rfl, hr⟩
      refine ⟨1, by simp, ?_, ?_⟩
      · rw [nmatch_ch_iff]
        rfl
      · have hd : (c :: (l' ++ t)).drop 1 = l' ++ t := rfl
        rw [List.cons_append, hd]
        exact (ih (l' ++ t)).mpr ⟨t, rfl, hr⟩

theorem matchHere_iff (r : GRegex) (cs : List Char) :
    matchHere r cs = true ↔ ∃ i, i ≤ cs.length ∧ nmatch r (cs.take i) = true := by
  simp [matchHere, List.any_eq_true, List.mem_range, Nat.lt_succ_iff]

/-- Any anchored match of a compiled literal chain forces the literal to
be an initial segment of the input. -/
theorem matchHere_chain_LPre (l : List Char) (r : GRegex) (cs : List Char)
    (h : matchHere (chainOnto l r) cs = true) : LPre l cs := by
  obtain ⟨i, hi, hm⟩ := (matchHere_iff _ _).mp h
  obtain ⟨t, ht, -⟩ := (nmatch_chainOnto_iff l r _).mp hm
  exact LPre_trans ⟨t, ht⟩ (LPre_of_take i cs)

/-- A character that the compiler treats as a plain literal. -/
def LitChar (c : Char) : Prop :=
  c ≠ '\\' ∧ c ≠ '[' ∧ c ≠ '.' ∧ c ≠ '*' ∧ c ≠ '+'

instance (c : Char) : Decidable (LitChar c) := by
  unfold LitChar
  infer_instance

theorem compileF_nil (fuel : Nat) : compileF fuel [] = .eps := by
  cases fuel <;> rfl

theorem postfixCase_lit (a : GRegex) (k : List Char → GRegex)
    (rest : List Char) (hk : k [] = .eps)
    (hr : ∀ d, rest.head? = some d → d ≠ '*' ∧ d ≠ '+') :
    postfixCase a k rest = .cat a (k rest) := by
  cases rest with
  | nil => simp [postfixCase, hk]
  | cons d rest₂ =>
    obtain ⟨h1, h2⟩ := hr d rfl
    simp [postfixCase, if_neg h1, if_neg h2]

theorem compileF_cons_lit (fuel : Nat) (c : Char) (rest : List Char)
    (h : LitChar c)
    (hr : ∀ d, rest.head? = some d → d ≠ '*' ∧ d ≠ '+') :
    compileF (fuel + 1) (c :: rest) = .cat (.ch c) (compileF fuel rest) := by
  obtain ⟨h1, h2, h3, h4, h5⟩ := h
  rw [compileF, if_neg h1, if_neg h3, if_neg h2]
  exact postfixCase_lit (.ch c) (compileF fuel) rest (compileF_nil fuel) hr

theorem compileF_lit_append (l rest : List Char)
    (hl : ∀ c ∈ l, LitChar c)
    (hr : ∀ d, rest.head? = some d → d ≠ '*' ∧ d ≠ '+') :
    compileF (l.length + rest.length) (l ++ rest) =
      chainOnto l (compileF rest.length rest) := by
  induction l with
  | nil => simp [chainOnto]
  | cons c l' ih =>
    have hc : LitChar c := hl c (List.mem_cons_self c l')
    have hstep : ∀ d, (l' ++ rest).head? = some d → d ≠ '*' ∧ d ≠ '+' := by
      intro d hd
      cases l' with
      | nil =>
        exact hr d (by simpa using hd)
      | cons e l'' =>
        have he : e = d := by simpa using hd
        have hle : LitChar e := hl e (by simp)
        exact ⟨he ▸ hle.2.2.2.1, he ▸ hle.2.2.2.2⟩
    have hlen : (c :: l').length + rest.length =
        (l'.length + rest.length) + 1 := by
      simp [List.length_cons]
      omega
    rw [List.cons_append, hlen,
      compileF_cons_lit (l'.length + rest.length) c (l' ++ rest) hc hstep]
    rw [ih (fun a ha => hl a (List.mem_cons_of_mem c ha))]
    rfl

/-- Compiling a literal-safe prefix produces the character chain in front
of the compilation of the remaining pattern. -/
theorem compile_lit_append (l rest : List Char)
    (hl : ∀ c ∈ l, LitChar c)
    (hr : ∀ d, rest.head? = some d → d ≠ '*' ∧ d ≠ '+') :
    compile (l ++ rest) = chainOnto l (compile rest) := by
  have h := compileF_lit_append l rest hl hr
  simpa [compile, List.length_append] using h

/- ----------------------------------------------------------------- -/
/- Safe interpolated values: the character sets actually occurring   -/
/- in Kubernetes UIDs, config hashes and container names.            -/
/- ----------------------------------------------------------------- -/

/-- Characters that regexp treats as themselves: letters, digits,
hyphen, underscore.  Kubernetes UIDs, config hashes and container names
consist of these. -/
def SafeChar (c : Char) : Prop := c.isAlphanum = true ∨ c = '-' ∨ c = '_'

instance (c : Char) : Decidable (SafeChar c) := by
  unfold SafeChar
  infer_instance

theorem safeChar_litChar (c : Char) (h : SafeChar c) : LitChar c := by
  rcases h with h | h | h
  · refine ⟨?_, ?_, ?_, ?_, ?_⟩ <;>
      (intro e; subst e; exact absurd h (by decide))
  · subst h; decide
  · subst h; decide

theorem safeChar_not_special (c : Char) (h : SafeChar c) : c ∉ goSpecials := by
  rcases h with h | h | h
  · intro hm
    simp [goSpecials] at hm
    rcases hm with rfl|rfl|rfl|rfl|rfl|rfl|rfl|rfl|rfl|rfl|rfl|rfl|rfl|rfl <;>
      exact absurd h (by decide)
  · subst h; decide
  · subst h; decide

theorem goQuoteMeta_eq_self (s : String) (h : ∀ c ∈ s.data, SafeChar c) :
    goQuoteMeta s = s := by
  have hfold : ∀ l : List Char, (∀ c ∈ l, SafeChar c) →
      l.foldr (fun c acc => if c ∈ goSpecials then '\\' :: c :: acc else c :: acc) [] = l := by
    intro l
    induction l with
    | nil => intro _; rfl
    | cons c l' ih =>
      intro hl
      simp only [List.foldr_cons]
      rw [if_neg (safeChar_not_special c (hl c (by simp))),
        ih (fun a ha => hl a (by simp [ha]))]
  unfold goQuoteMeta
  rw [hfold s.data h]

/-- A glob match of `dir ++ "/*"` decomposes the file name as the
directory, a slash, and a separator-free remainder. -/
theorem globStar_decomp (dir f : String) (h : globStarMatches dir f = true) :
    ∃ x, f.data = (dir ++ "/").data ++ x ∧ '/' ∉ x := by
  unfold globStarMatches at h
  rw [Bool.and_eq_true] at h
  obtain ⟨h1, h2⟩ := h
  rw [decide_eq_true_eq] at h1
  refine ⟨f.data.drop (dir ++ "/").data.length, ?_, ?_⟩
  · conv_lhs => rw [← List.take_append_drop (dir ++ "/").data.length f.data]
    rw [h1]
  · intro hm
    have := List.all_eq_true.mp h2 '/' hm
    simp at this

/-- Core of claim C10: the new-layout filter regex keyed by a (safe)
config hash accepts no file name that the glob for the UID directory
enumerates, as long as the UID is separator-free and differs from the
hash. -/
theorem hash_filter_rejects_uid_glob (hash cname uid : String) (f : String)
    (hh : ∀ c ∈ hash.data, SafeChar c)
    (hcs : ∀ c ∈ cname.data, SafeChar c)
    (hus : '/' ∉ uid.data)
    (hne : hash ≠ uid)
    (hg : globStarMatches (podsDir uid) f = true) :
    goRegexpMatch ("^/var/log/pods/" ++ hash ++ "/" ++ goQuoteMeta cname ++
      "_[0-9]*\\.log") f = false := by
  by_contra hacc
  rw [Bool.not_eq_false] at hacc
  have hqm : goQuoteMeta cname = cname := goQuoteMeta_eq_self cname hcs
  have h0 : ("^/var/log/pods/" : String).data =
      '^' :: ("/var/log/pods/" : String).data := rfl
  have h1 : ("_[0-9]*\\.log" : String).data =
      '_' :: ("[0-9]*\\.log" : String).data := rfl
  have h2 : ("/" : String).data = ['/'] := rfl
  have hpat : ("^/var/log/pods/" ++ hash ++ "/" ++ goQuoteMeta cname ++
      "_[0-9]*\\.log").data =
      '^' :: ((("/var/log/pods/" : String).data ++ hash.data ++ ['/'] ++
        cname.data ++ ['_']) ++ ("[0-9]*\\.log" : String).data) := by
    rw [hqm]
    simp [String.data_append, h0, h1, h2, List.append_assoc]
  have hlit : ∀ c ∈ ("/var/log/pods/" : String).data ++ hash.data ++ ['/'] ++
      cname.data ++ ['_'], LitChar c := by
    intro c hc
    simp only [List.mem_append] at hc
    rcases hc with ((((hc | hc) | hc) | hc) | hc)
    · revert hc
      revert c
      decide
    · exact safeChar_litChar c (hh c hc)
    · simp at hc
      subst hc
      decide
    · exact safeChar_litChar c (hcs c hc)
    · simp at hc
      subst hc
      decide
  have hhead : ∀ d, (("[0-9]*\\.log" : String).data).head? = some d →
      d ≠ '*' ∧ d ≠ '+' := by
    intro d hd
    have hob : (("[0-9]*\\.log" : String).data).head? = some '[' := rfl
    rw [hob] at hd
    injection hd with hd
    subst hd
    exact ⟨by decide, by decide⟩
  have hmm : matchHere (compile ((("/var/log/pods/" : String).data ++
      hash.data ++ ['/'] ++ cname.data ++ ['_']) ++
      ("[0-9]*\\.log" : String).data)) f.data = true := by
    unfold goRegexpMatch at hacc
    rw [hpat] at hacc
    simpa using hacc
  rw [compile_lit_append _ _ hlit hhead] at hmm
  have hLpre : LPre (("/var/log/pods/" : String).data ++ hash.data ++ ['/'] ++
      cname.data ++ ['_']) f.data := matchHere_chain_LPre _ _ _ hmm
  obtain ⟨x, hx, hxs⟩ := globStar_decomp (podsDir uid) f hg
  have hx' : f.data = ("/var/log/pods/" : String).data ++
      (uid.data ++ ['/'] ++ x) := by
    rw [hx]
    simp only [podsDir, String.data_append, h2, List.append_assoc]
  have hA : LPre (("/var/log/pods/" : String).data ++ (hash.data ++ ['/']))
      f.data := by
    refine LPre_trans ⟨cname.data ++ ['_'], ?_⟩ hLpre
    simp [List.append_assoc]
  rw [hx'] at hA
  have hcore : LPre (hash.data ++ ['/']) (uid.data ++ ['/'] ++ x) :=
    LPre_cancel hA
  rcases Nat.lt_trichotomy hash.data.length uid.data.length with hlt | heq | hgt
  · have hcore' : LPre (hash.data ++ ['/']) (uid.data ++ (['/'] ++ x)) := by
      rw [← List.append_assoc]
      exact hcore
    have hpre : LPre (hash.data ++ ['/']) uid.data :=
      LPre_append_le hcore'
        (by simp only [List.length_append, List.length_singleton]; omega)
    exact hus (LPre_mem hpre (by simp))
  · have hpre : LPre (hash.data ++ ['/']) (uid.data ++ ['/']) := by
      refine LPre_append_le hcore ?_
      simp only [List.length_append, List.length_singleton]
      omega
    have heqd : hash.data ++ ['/'] = uid.data ++ ['/'] :=
      LPre_full hpre (by simp only [List.length_append, List.length_singleton]; omega)
    have : hash.data = uid.data := List.append_cancel_right heqd
    exact hne (String.ext this)
  · have hBpre : LPre (uid.data ++ ['/']) (uid.data ++ ['/'] ++ x) :=
      ⟨x, rfl⟩
    have h₁ : LPre (uid.data ++ ['/']) (hash.data ++ ['/']) :=
      LPre_common hBpre hcore
        (by simp only [List.length_append, List.length_singleton]; omega)
    have h₂ : LPre (uid.data ++ ['/']) hash.data := by
      refine LPre_append_le h₁ ?_
      simp only [List.length_append, List.length_singleton]
      omega
    obtain ⟨A₂, hA2⟩ := h₂
    have hcore₂ : LPre ((uid.data ++ ['/']) ++ (A₂ ++ ['/']))
        ((uid.data ++ ['/']) ++ x) := by
      rw [← List.append_assoc, ← hA2]
      exact hcore
    have h₃ : LPre (A₂ ++ ['/']) x := LPre_cancel hcore₂
    exact hxs (LPre_mem h₃ (by simp))

/-- A critical pod whose hash directory is missing while its UID
directory exists. -/
def podHashU : Pod :=
  { name := "kp", ns := "kube-system", uid := "u-1",
    anns := [("kubernetes.io/config.hash", "abc123")] }

/-- A filesystem on which only the UID directory of `podHashU` exists. -/
def statUidOnly : String → Except StatErr Unit := fun p =>
  if p = "/var/log/pods/u-1" then .ok () else .error .notExist

/-- Claim C10: with a config-hash annotation and a container-name
constraint, determineFilterFunc keys the filter regex by the hash with no
filesystem probe (the definition takes no filesystem oracle), so when the
hash directory is missing but the UID directory exists,
determineLogPattern resolves to the UID pattern while the filter only
accepts paths under the hash directory — and no file name matched by the
resolved glob satisfies the filter. -/
theorem hash_keyed_filter_excludes_uid_pattern_files
    (pod : Pod) (cname hash : String) (stat : String → Except StatErr Unit)
    (f : String)
    (hann : annLookup pod "kubernetes.io/config.hash" = some hash)
    (hcname : cname ≠ "")
    (hh : ∀ c ∈ hash.data, SafeChar c)
    (hcs : ∀ c ∈ cname.data, SafeChar c)
    (hus : '/' ∉ pod.uid.data)
    (hstatH : statOk (stat (podsDir hash)) = false)
    (hstatU : statOk (stat (podsDir pod.uid)) = true) :
    determineFilterRegex pod cname false =
      some ("^/var/log/pods/" ++ hash ++ "/" ++ goQuoteMeta cname ++
        "_[0-9]*\\.log")
    ∧ determineLogPattern pod false stat = .ok (podsDir pod.uid ++ "/*")
    ∧ (globStarMatches (podsDir pod.uid) f = true →
        filterAccepts (determineFilterRegex pod cname false) f = false) := by
  have hfr : determineFilterRegex pod cname false =
      some ("^/var/log/pods/" ++ hash ++ "/" ++ goQuoteMeta cname ++
        "_[0-9]*\\.log") := by
    simp [determineFilterRegex, hcname, hann]
  have hne : hash ≠ pod.uid := by
    intro e
    rw [e] at hstatH
    rw [hstatH] at hstatU
    simp at hstatU
  refine ⟨hfr, ?_, ?_⟩
  · simp [determineLogPattern, hann, hstatH, hstatU]
  · intro hg
    rw [hfr]
    simp only [filterAccepts]
    exact hash_filter_rejects_uid_glob hash cname pod.uid f hh hcs hus hne hg

/-- Witness for C10: concrete pod, hash and filesystem; the file the glob
finds under the UID directory is rejected by the hash-keyed filter. -/
theorem hash_keyed_filter_excludes_uid_pattern_files_witness :
    determineLogPattern podHashU false statUidOnly = .ok "/var/log/pods/u-1/*"
    ∧ filterAccepts (determineFilterRegex podHashU "app" false)
        "/var/log/pods/u-1/app_0.log" = false := by
  have h := hash_keyed_filter_excludes_uid_pattern_files podHashU "app" "abc123"
    statUidOnly "/var/log/pods/u-1/app_0.log" (by decide) (by decide)
    (by decide) (by decide) (by decide) (by decide) (by decide)
  exact ⟨h.2.1, h.2.2 (by decide)⟩

set_option maxHeartbeats 1000000 in
/-- The legacy filter regex for pod web-1/default and container app
forces any accepted file name to start with the full directory prefix. -/
theorem legacy_filter_forces_dir_start (f : String)
    (h : filterAccepts (determineFilterRegex podW1 "app" true) f = true) :
    f.data.take ("/var/log/containers/web-1_default_app-" : String).data.length =
      ("/var/log/containers/web-1_default_app-" : String).data := by
  have hacc : matchHere
      (compile (("/var/log/containers/web-1_default_app-" : String).data ++
        (".+\\.log" : String).data)) f.data = true := h
  rw [compile_lit_append _ _ (by decide) (by decide)] at hacc
  exact LPre_take (matchHere_chain_LPre _ _ _ hacc)

set_option maxHeartbeats 1000000 in
/-- Counterexample for C5 as stated: in legacy mode the filter regex is
anchored at the /var/log/containers/ directory, so the bare file name
(without the directory) from the claim is rejected, not accepted. -/
theorem legacy_filter_rejects_bare_filename :
    filterAccepts (determineFilterRegex podW1 "app" true)
      "web-1_default_app-abc123.log" = false := by
  by_contra hacc
  rw [Bool.not_eq_false] at hacc
  exact absurd (legacy_filter_forces_dir_start _ hacc) (by decide)

set_option maxHeartbeats 1000000 in
/-- Claim C5 (amended): with no container-name constraint the filter is
absent and the watcher accepts every file name; with containerName "app"
in legacy mode for pod web-1/default the predicate accepts the full path
/var/log/containers/web-1_default_app-<id>.log and rejects the sidecar
path. -/
theorem filter_none_accepts_all_and_legacy_full_paths :
    (∀ (pod : Pod) (legacy : Bool) (fn : String),
      filterAccepts (determineFilterRegex pod "" legacy) fn = true)
    ∧ filterAccepts (determineFilterRegex podW1 "app" true)
        "/var/log/containers/web-1_default_app-abc123.log" = true
    ∧ filterAccepts (determineFilterRegex podW1 "app" true)
        "/var/log/containers/web-1_default_sidecar-abc123.log" = false := by
  refine ⟨?_, ?_, ?_⟩
  · intro pod legacy fn
    simp [determineFilterRegex, filterAccepts]
  · show matchHere
      (compile (("/var/log/containers/web-1_default_app-" : String).data ++
        (".+\\.log" : String).data))
      ("/var/log/containers/web-1_default_app-abc123.log" : String).data = true
    rw [compile_lit_append _ _ (by decide) (by decide)]
    rw [matchHere_iff]
    refine ⟨("/var/log/containers/web-1_default_app-abc123.log" : String).data.length,
      le_refl _, ?_⟩
    rw [List.take_length]
    rw [nmatch_chainOnto_iff]
    exact ⟨("abc123.log" : String).data, by decide, by decide⟩
  · by_contra hacc
    rw [Bool.not_eq_false] at hacc
    exact absurd (legacy_filter_forces_dir_start _ hacc) (by decide)
